import Mathlib

set_option maxRecDepth 16384

/-!
Verification of the kieserchart CSV-to-chart pipeline.

Shallow embedding of `src/kieserchart.js` (the transform pipeline: number
normalisation, header classification, series building, daily-average
aggregation, color assignment and series ordering), together with theorems
settling the specification claims about it.

JS numbers are modelled as `ℚ` (the pipeline only ever parses and averages
decimal literals), JS `null`/`undefined` as `Option`, and the JS string cells
as Lean `String`s.
-/

namespace Kieserchart

/-! ## Locale-aware numeric string comparison

Model of `a.localeCompare(b, 'en', { numeric: true })` (used at
`kieserchart.js:146` and `:247`): a string is tokenised into maximal digit
runs (compared by numeric value, so `"A9" < "A10"`, and `"01"` collates equal
to `"1"` since leading zeros carry no weight) and single non-digit characters
(compared case-insensitively first, with the ICU `en` tertiary tiebreak that
puts lowercase before uppercase; digit tokens collate before letter tokens).
-/

inductive Tok where
  | num : Nat → Tok
  | chr : Char → Tok
deriving DecidableEq, Repr

/-- Numeric value of a digit run. -/
def natOfDigits (cs : List Char) : Nat :=
  cs.foldl (fun acc c => 10 * acc + (c.toNat - 48)) 0

/-- Tokenise a character list into digit runs and single characters.  Fuel
makes the recursion structural; `cs.length` fuel always suffices because a
digit run consumes at least the one character inspected. -/
def toksFuel : Nat → List Char → List Tok
  | 0, _ => []
  | _, [] => []
  | fuel + 1, c :: cs =>
    if c.isDigit then
      Tok.num (natOfDigits (c :: cs.takeWhile Char.isDigit)) ::
        toksFuel fuel (cs.dropWhile Char.isDigit)
    else
      Tok.chr c :: toksFuel fuel cs

def toks (cs : List Char) : List Tok :=
  toksFuel cs.length cs

/-- Compare-then-tiebreak on a pair of naturals. -/
def pairCmp (x y : Nat × Nat) : Ordering :=
  match compare x.1 y.1 with
  | Ordering.eq => compare x.2 y.2
  | o => o

/-- Collation key of one character: case-folded code point first, then the
lowercase-before-uppercase tiebreak (reversed raw code point). -/
def charKey (c : Char) : Nat × Nat :=
  (c.toLower.toNat, 1114112 - c.toNat)

def cmpChar (a b : Char) : Ordering :=
  pairCmp (charKey a) (charKey b)

def cmpTok : Tok → Tok → Ordering
  | Tok.num m, Tok.num n => compare m n
  | Tok.num _, Tok.chr _ => Ordering.lt
  | Tok.chr _, Tok.num _ => Ordering.gt
  | Tok.chr a, Tok.chr b => cmpChar a b

def cmpToks : List Tok → List Tok → Ordering
  | [], [] => Ordering.eq
  | [], _ :: _ => Ordering.lt
  | _ :: _, [] => Ordering.gt
  | a :: as, b :: bs =>
    match cmpTok a b with
    | Ordering.eq => cmpToks as bs
    | o => o

/-- `a.localeCompare(b, 'en', { numeric: true })` as an `Ordering`. -/
def localeCompareNum (a b : String) : Ordering :=
  cmpToks (toks a.data) (toks b.data)

/-- The `≤` predicate the sort comparators at `kieserchart.js:146` and `:247`
induce (the JS sort puts `a` no later than `b` iff the comparator is `≤ 0`). -/
def keyLE (a b : String) : Bool :=
  localeCompareNum a b != Ordering.gt

/-- `keyLE` as a decidable relation; the ECMAScript `Array.prototype.sort` is
required to be stable, which we model with the stable `List.insertionSort`. -/
def keyRel (a b : String) : Prop :=
  keyLE a b = true

instance : DecidableRel keyRel := fun a b =>
  inferInstanceAs (Decidable (keyLE a b = true))

/-! ## Number Normalizer (`toNumberOrNull`, `kieserchart.js:49-62`) -/

/-- A raw JS cell value as seen by `toNumberOrNull`. -/
inductive JSVal where
  | vnull                 -- `null` / `undefined`
  | num (q : ℚ)           -- a finite JS number
  | nan                   -- `NaN` (fails the `isFinite` guard)
  | inf (neg : Bool)      -- `±Infinity` (fails the `isFinite` guard)
  | str (s : String)
deriving DecidableEq, Repr

/-- `String(val).replace(/[^0-9.,]/g, '')` — keep only digits, periods and
commas.  (The subsequent `.trim()` in the source is a no-op because the
filtered string contains no whitespace.) -/
def cleanChars (s : String) : List Char :=
  s.data.filter fun c => c.isDigit || c = '.' || c = ','

/-- `s.replace(',', '.')` — JS `String.replace` with a string pattern replaces
only the FIRST occurrence. -/
def replaceComma : List Char → List Char
  | [] => []
  | c :: rest => if c = ',' then '.' :: rest else c :: replaceComma rest

/-- `parseFloat(s)` on a string made of digits, periods and commas: the
longest prefix of shape `digits ['.' digits]` is parsed; if it contains no
digit at all the result is `NaN` (modelled `none`). -/
def parseFloatQ (cs : List Char) : Option ℚ :=
  let intPart := cs.takeWhile Char.isDigit
  let rest := cs.dropWhile Char.isDigit
  let fracPart := match rest with
    | '.' :: r => r.takeWhile Char.isDigit
    | _ => []
  if intPart = [] ∧ fracPart = [] then none
  else some ((natOfDigits intPart : ℚ) +
    (natOfDigits fracPart : ℚ) / (10 : ℚ) ^ fracPart.length)

/-- The string branch of `toNumberOrNull` (everything after the `isFinite`
guard). -/
def toNumberFromString (s : String) : Option ℚ :=
  let cs := cleanChars s
  if cs = [] then none
  else parseFloatQ (replaceComma cs)

/-- `toNumberOrNull` (`kieserchart.js:49-62`).  `String(NaN) = "NaN"` and
`String(±Infinity) = "±Infinity"` contain no digit, period or comma, so the
non-finite numbers take the string path with those spellings. -/
def toNumberOrNull : JSVal → Option ℚ
  | JSVal.vnull => none
  | JSVal.num q => some q
  | JSVal.nan => toNumberFromString "NaN"
  | JSVal.inf b => toNumberFromString (if b then "-Infinity" else "Infinity")
  | JSVal.str s => toNumberFromString s

/-! ## Data model -/

/-- A machine series data point (`{ x: dateString, y: weight, sec: … }`,
`kieserchart.js:125-132`).  Average points carry no `sec` field; we model the
missing field as `none`. -/
structure Point where
  x : String
  y : ℚ
  sec : Option ℚ := none
deriving DecidableEq, Repr

/-- A color value: the palette and derived machine colors are `hsl(h, s%, l%)`
strings, the Average color is the string `rgb(0, 0, 0)`
(`kieserchart.js:7-17`). -/
inductive Color where
  | hsl (hue sat light : ℤ)
  | rgb (r g b : ℤ)
deriving DecidableEq, Repr

/-- One chart series (`{ key, values, isAverage, color }`).  `color` is
`none` until the assignment pass at `kieserchart.js:157-159` fills it in. -/
structure Line where
  key : String
  values : List Point
  isAverage : Bool := false
  color : Option Color := none
deriving DecidableEq, Repr

/-- An identified primary machine column (`{ name: header, index: i }`,
`kieserchart.js:101`). -/
structure MachineCol where
  name : String
  index : Nat
deriving DecidableEq, Repr

/-! ## Header classification (`kieserchart.js:97-109`) -/

/-- The header scan loop: `for (let i = 1; i < headers.length; i++)`,
processed as the suffix of the header row from position `i` on (so `i + 1 <
headers.length` becomes "the suffix has a second element").  A non-empty
trimmed header starts a machine column; if the immediately following header is
blank it is consumed (skipped) as that machine's `sec` column. -/
def machineColumnsAux : List String → Nat → List MachineCol
  | [], _ => []
  | h :: rest, i =>
    if h.trim = "" then machineColumnsAux rest (i + 1)
    else
      match rest with
      | h2 :: rest2 =>
        if h2.trim = "" then
          { name := h.trim, index := i } :: machineColumnsAux rest2 (i + 2)
        else
          { name := h.trim, index := i } :: machineColumnsAux (h2 :: rest2) (i + 1)
      | [] => [{ name := h.trim, index := i }]

def machineColumns (headers : List String) : List MachineCol :=
  machineColumnsAux (headers.drop 1) 1

/-- `machine.name.replace(/ lbs$/i, '').trim()` (`kieserchart.js:114`). -/
def stripLbs (s : String) : String :=
  let cs := s.data
  if 4 ≤ cs.length ∧ (cs.drop (cs.length - 4)).map Char.toLower = [' ', 'l', 'b', 's'] then
    (⟨cs.take (cs.length - 4)⟩ : String).trim
  else s.trim

/-! ## Series building (`kieserchart.js:112-139`) -/

/-- `row[i]` — JS indexing beyond the row yields `undefined`, which
`toNumberOrNull` treats as `null`. -/
def jsCell (row : List String) (i : Nat) : JSVal :=
  match row.get? i with
  | none => JSVal.vnull
  | some s => JSVal.str s

/-- JS truthiness of the cell `row[i]` (`undefined` and `""` are falsy). -/
def truthyCell (row : List String) (i : Nat) : Bool :=
  match row.get? i with
  | none => false
  | some s => s != ""

/-- The data point emitted for one machine and one row, if any
(`kieserchart.js:119-136`): requires a truthy date cell and a parseable
weight; the `sec` value is read from the column immediately after the
machine's primary column whenever that column index is inside the header
row. -/
def pointForRow (headers : List String) (machine : MachineCol) (row : List String) :
    Option Point :=
  let y := toNumberOrNull (jsCell row machine.index)
  match y with
  | some y =>
    if truthyCell row 0 then
      some { x := (row.get? 0).getD "", y := y,
             sec := if machine.index + 1 < headers.length then
                      toNumberOrNull (jsCell row (machine.index + 1))
                    else none }
    else none
  | none => none

/-- `lines` before color assignment (`kieserchart.js:112-139`): one series per
machine column, key = name with the ` lbs` suffix stripped, empty series
dropped. -/
def buildLines (headers : List String) (rows : List (List String)) : List Line :=
  ((machineColumns headers).map fun machine =>
    { key := stripLbs machine.name,
      values := rows.filterMap (pointForRow headers machine),
      isAverage := false,
      color := none }).filter fun line => !line.values.isEmpty

/-! ## Color assignment (`kieserchart.js:7-17`, `141-160`, `214-235`) -/

/-- `GROUP_COLORS` (`kieserchart.js:7-15`) as (hue, saturation, lightness)
triples — `getColorForMachine` re-parses the strings into exactly these three
numbers via `match(/\d+/g)`. -/
def groupColors (g : String) : Option (ℤ × ℤ × ℤ) :=
  if g = "A" then some (205, 70, 50)
  else if g = "B" then some (160, 70, 45)
  else if g = "C" then some (350, 75, 55)
  else if g = "D" then some (35, 85, 50)
  else if g = "F" then some (280, 60, 60)
  else if g = "G" then some (50, 80, 50)
  else none

/-- `GROUP_COLORS['DEFAULT'] = 'hsl(0, 0%, 50%)'`. -/
def defaultBase : ℤ × ℤ × ℤ := (0, 0, 50)

/-- `key.charAt(0).toUpperCase()` (`kieserchart.js:215`). -/
def groupLetter (key : String) : String :=
  (key.take 1).toUpper

/-- `getColorForMachine` (`kieserchart.js:214-235`), reading the current
count for the machine's group from `groupCounts` (the JS `Map.get`, absent
entries counting as 0).  The `groupCounts.set(group, countInGroup + 1)`
side effect is performed by the caller model `assignColorsAux`. -/
def getColorForMachine (key : String) (groupCounts : String → Nat) : Color :=
  let group := groupLetter key
  let base := (groupColors group).getD defaultBase
  let countInGroup := groupCounts group
  let hue := base.1
  let saturation := base.2.1
  let lightness := base.2.2
  if countInGroup = 0 then
    Color.hsl hue saturation lightness
  else
    let lightnessShift : ℤ :=
      (if countInGroup % 2 = 1 then 1 else -1) * (((countInGroup + 1) / 2 : Nat) : ℤ) * 8
    Color.hsl hue saturation (max 20 (min 85 (lightness + lightnessShift)))

/-- The color formula as the specification states it (spec §4.5), for
comparison with `getColorForMachine`: the rank-`r` machine of a group (`r`
counted from 0 in sorted-key order) keeps the group's base color for `r = 0`
and otherwise shifts its lightness by `±8 × ceil(r/2)` percentage points
(sign positive for odd `r`), clamped to `[20, 85]`; a group letter without a
palette entry uses the default grey base. -/
def specColorForRank (key : String) (r : Nat) : Color :=
  let base := (groupColors (groupLetter key)).getD defaultBase
  if r = 0 then Color.hsl base.1 base.2.1 base.2.2
  else
    Color.hsl base.1 base.2.1
      (max 20 (min 85 (base.2.2 + (if r % 2 = 1 then 1 else -1) * 8 * (((r + 1) / 2 : Nat) : ℤ))))

/-- The `sortedMachineKeys.forEach` pass (`kieserchart.js:152-154`): derive a
color per key in order, threading the per-group counters. -/
def assignColorsAux : List String → (String → Nat) → List (String × Color)
  | [], _ => []
  | k :: ks, counts =>
    (k, getColorForMachine k counts) ::
      assignColorsAux ks
        (fun g => if g = groupLetter k then counts g + 1 else counts g)

/-- `sortedMachineKeys` (`kieserchart.js:144-146`): the line keys sorted by
the locale-aware numeric comparison (JS sort is stable). -/
def sortedMachineKeys (lines : List Line) : List String :=
  List.insertionSort keyRel (lines.map fun line => line.key)

/-- `machineColorsMap` (`kieserchart.js:148-154`) as an association list in
insertion order; on duplicate keys the later `Map.set` wins, so reads go
through `mapGet` below. -/
def machineColorsMap (lines : List Line) : List (String × Color) :=
  assignColorsAux (sortedMachineKeys lines) (fun _ => 0)

/-- `Map.get`: the value written last for the key. -/
def mapGet (m : List (String × Color)) (k : String) : Option Color :=
  m.reverse.lookup k

/-- `lines.forEach(line => { line.color = machineColorsMap.get(line.key) })`
(`kieserchart.js:157-159`). -/
def linesWithColors (lines : List Line) : List Line :=
  lines.map fun line => { line with color := mapGet (machineColorsMap lines) line.key }

/-! ## Aggregation: the Average series (`kieserchart.js:162-194`) -/

/-- One step of the `dailyTotals` accumulation (`kieserchart.js:163-173`):
a `Map` from date string to `{ totalWeight, count }`, modelled as an
association list in insertion order with unique keys. -/
def dailyStep (acc : List (String × ℚ × Nat)) (p : Point) : List (String × ℚ × Nat) :=
  if acc.any (fun e => e.1 == p.x) then
    acc.map fun e => if e.1 = p.x then (e.1, e.2.1 + p.y, e.2.2 + 1) else e
  else acc ++ [(p.x, p.y, 1)]

/-- All points of all machine lines, in iteration order
(`lines.forEach(line => line.values.forEach(...))`). -/
def allPoints (lines : List Line) : List Point :=
  (lines.map fun line => line.values).flatten

def dailyTotals (lines : List Line) : List (String × ℚ × Nat) :=
  (allPoints lines).foldl dailyStep []

/-- The values recorded under date `d` across all machine lines, in iteration
order (used to state what the Average value for `d` must be). -/
def dateVals (lines : List Line) (d : String) : List ℚ :=
  ((allPoints lines).filter fun p => p.x == d).map fun p => p.y

/-- Sort key modelling `moment(s, "DD.MM.YYYY").toDate()` for the average
sort comparator (`kieserchart.js:184`). -/
def dateKey (s : String) : Nat :=
  match s.splitOn "." with
  | [d, m, y] => (y.toNat?.getD 0) * 10000 + (m.toNat?.getD 0) * 100 + (d.toNat?.getD 0)
  | _ => 0

def dateRel (p q : Point) : Prop :=
  dateKey p.x ≤ dateKey q.x

instance : DecidableRel dateRel := fun p q =>
  inferInstanceAs (Decidable (dateKey p.x ≤ dateKey q.x))

/-- `averageValues` (`kieserchart.js:175-184`): one `{ x, y }` point per date
group, `y = totalWeight / count`, sorted chronologically. -/
def averageValuesOf (lines : List Line) : List Point :=
  List.insertionSort dateRel
    ((dailyTotals lines).map fun e =>
      ({ x := e.1, y := e.2.1 / (e.2.2 : ℚ) } : Point))

/-- `averageLine` (`kieserchart.js:186-194`): present only when there is at
least one average point. -/
def averageLineOf (lines : List Line) : Option Line :=
  let averageValues := averageValuesOf lines
  if averageValues.isEmpty then none
  else some { key := "Average", values := averageValues, isAverage := true,
              color := some (Color.rgb 0 0 0) }

/-! ## The full transform (`kieserchart.js:84-206`) -/

/-- `transform(data)`: `none` models the `alert`-and-return error exit for a
missing header row or missing data rows; otherwise the produced `chartData`
(Average first when present, then the machine lines in CSV column order). -/
def transform (data : List (List String)) : Option (List Line) :=
  match data with
  | [] => none
  | headers :: rows =>
    if rows.isEmpty then none
    else
      let lines := linesWithColors (buildLines headers rows)
      let chartData :=
        match averageLineOf lines with
        | some avg => avg :: lines
        | none => lines
      some chartData

/-! ## Series ordering (`drawGraph`, `kieserchart.js:237-256`) -/

def lineRel (a b : Line) : Prop :=
  keyRel a.key b.key

instance : DecidableRel lineRel := fun a b =>
  inferInstanceAs (Decidable (keyRel a.key b.key))

/-- The ordering policy inside `drawGraph` (`kieserchart.js:239-256`): deep
copy (identity on our immutable values), pull out the first Average line,
sort the machine lines by key when grouping is on, and re-assemble with the
Average first. -/
def orderSeries (sourceData : List Line) (isGrouped : Bool) : List Line :=
  let averageLine := sourceData.find? fun d => d.isAverage
  let machineLines := sourceData.filter fun d => !d.isAverage
  let machineLines :=
    if isGrouped then List.insertionSort lineRel machineLines else machineLines
  averageLine.toList ++ machineLines

/-! ## Properties of the comparator -/

lemma natCompare_swap (m n : Nat) : (compare m n).swap = compare n m := by
  rcases Nat.lt_trichotomy m n with h | h | h
  · rw [Nat.compare_eq_lt.2 h, Nat.compare_eq_gt.2 h]; rfl
  · subst h; rw [Nat.compare_eq_eq.2 rfl]; rfl
  · rw [Nat.compare_eq_gt.2 h, Nat.compare_eq_lt.2 h]; rfl

lemma pairCmp_swap (x y : Nat × Nat) : (pairCmp x y).swap = pairCmp y x := by
  unfold pairCmp
  rw [← natCompare_swap x.1 y.1]
  rcases h : compare x.1 y.1 with _ | _ | _ <;>
    simp [Ordering.swap, ← natCompare_swap x.2 y.2]

lemma pairCmp_eq_iff (x y : Nat × Nat) : pairCmp x y = Ordering.eq ↔ x = y := by
  unfold pairCmp
  rcases h : compare x.1 y.1 with _ | _ | _
  · rw [Nat.compare_eq_lt] at h
    constructor
    · intro hc; exact absurd hc (by simp)
    · intro he; subst he; omega
  · rw [Nat.compare_eq_eq] at h
    rw [Nat.compare_eq_eq]
    constructor
    · intro he; exact Prod.ext h he
    · intro he; subst he; rfl
  · rw [Nat.compare_eq_gt] at h
    constructor
    · intro hc; exact absurd hc (by simp)
    · intro he; subst he; omega

lemma pairCmp_lt_iff (x y : Nat × Nat) :
    pairCmp x y = Ordering.lt ↔ x.1 < y.1 ∨ (x.1 = y.1 ∧ x.2 < y.2) := by
  unfold pairCmp
  rcases h : compare x.1 y.1 with _ | _ | _
  · rw [Nat.compare_eq_lt] at h; simp [h]
  · rw [Nat.compare_eq_eq] at h; rw [Nat.compare_eq_lt]; omega
  · rw [Nat.compare_eq_gt] at h
    constructor
    · intro hc; exact absurd hc (by simp)
    · intro hc; omega

/-- Key of a token for comparison purposes: digit runs (sorted by value)
collate before characters. -/
def tokKey : Tok → Nat × Nat × Nat
  | Tok.num n => (0, n, 0)
  | Tok.chr c => (1, charKey c)

def tripleCmp (x y : Nat × Nat × Nat) : Ordering :=
  match compare x.1 y.1 with
  | Ordering.eq => pairCmp x.2 y.2
  | o => o

lemma tripleCmp_lt_iff (x y : Nat × Nat × Nat) :
    tripleCmp x y = Ordering.lt ↔
      x.1 < y.1 ∨ (x.1 = y.1 ∧ (x.2.1 < y.2.1 ∨ (x.2.1 = y.2.1 ∧ x.2.2 < y.2.2))) := by
  unfold tripleCmp
  rcases h : compare x.1 y.1 with _ | _ | _
  · rw [Nat.compare_eq_lt] at h; simp [h]
  · rw [Nat.compare_eq_eq] at h
    rw [pairCmp_lt_iff]
    constructor
    · intro hc; omega
    · intro hc; omega
  · rw [Nat.compare_eq_gt] at h
    constructor
    · intro hc; exact absurd hc (by simp)
    · intro hc; exact absurd hc (by omega)

lemma cmpTok_eq_tripleCmp (a b : Tok) :
    cmpTok a b = tripleCmp (tokKey a) (tokKey b) := by
  cases a with
  | num m =>
    cases b with
    | num n =>
      show compare m n = tripleCmp (0, m, 0) (0, n, 0)
      show compare m n = pairCmp (m, 0) (n, 0)
      rcases h : compare m n with _ | _ | _ <;>
        simp [pairCmp, h, Nat.compare_eq_eq.2 (rfl : (0 : Nat) = 0)]
    | chr c =>
      show Ordering.lt = tripleCmp (0, m, 0) (1, charKey c)
      rfl
  | chr c =>
    cases b with
    | num n =>
      show Ordering.gt = tripleCmp (1, charKey c) (0, n, 0)
      rfl
    | chr d =>
      show cmpChar c d = tripleCmp (1, charKey c) (1, charKey d)
      show pairCmp (charKey c) (charKey d) = pairCmp (charKey c) (charKey d)
      rfl

lemma tripleCmp_swap (x y : Nat × Nat × Nat) : (tripleCmp x y).swap = tripleCmp y x := by
  unfold tripleCmp
  rw [← natCompare_swap x.1 y.1]
  rcases h : compare x.1 y.1 with _ | _ | _ <;>
    simp [Ordering.swap, ← pairCmp_swap x.2 y.2]

lemma tripleCmp_eq_iff (x y : Nat × Nat × Nat) : tripleCmp x y = Ordering.eq ↔ x = y := by
  unfold tripleCmp
  rcases h : compare x.1 y.1 with _ | _ | _
  · rw [Nat.compare_eq_lt] at h
    constructor
    · intro hc; exact absurd hc (by simp)
    · intro he; subst he; omega
  · rw [Nat.compare_eq_eq] at h
    rw [pairCmp_eq_iff]
    constructor
    · intro he; exact Prod.ext h he
    · intro he; subst he; rfl
  · rw [Nat.compare_eq_gt] at h
    constructor
    · intro hc; exact absurd hc (by simp)
    · intro he; subst he; omega

lemma tripleCmp_lt_le_lt {x y z : Nat × Nat × Nat}
    (h₁ : tripleCmp x y = Ordering.lt) (h₂ : tripleCmp y z ≠ Ordering.gt) :
    tripleCmp x z = Ordering.lt := by
  have hyz : tripleCmp y z = Ordering.lt ∨ y = z := by
    rcases h : tripleCmp y z with _ | _ | _
    · exact Or.inl rfl
    · exact Or.inr ((tripleCmp_eq_iff y z).1 h)
    · exact absurd h h₂
  rcases hyz with hyz | hyz
  · rw [tripleCmp_lt_iff] at h₁ hyz ⊢
    omega
  · rw [← hyz]; exact h₁

lemma cmpToks_swap : ∀ (x y : List Tok), (cmpToks x y).swap = cmpToks y x
  | [], [] => rfl
  | [], _ :: _ => rfl
  | _ :: _, [] => rfl
  | a :: as, b :: bs => by
    unfold cmpToks
    have hswap : cmpTok b a = (cmpTok a b).swap := by
      rw [cmpTok_eq_tripleCmp, cmpTok_eq_tripleCmp, tripleCmp_swap]
    rcases h : cmpTok a b with _ | _ | _
    · rw [hswap, h]; rfl
    · rw [hswap, h]
      show (cmpToks as bs).swap = cmpToks bs as
      exact cmpToks_swap as bs
    · rw [hswap, h]; rfl

lemma cmpToks_le_trans :
    ∀ {x y z : List Tok}, cmpToks x y ≠ Ordering.gt → cmpToks y z ≠ Ordering.gt →
      cmpToks x z ≠ Ordering.gt
  | [], _, [], _, _ => by simp [cmpToks]
  | [], _, _ :: _, _, _ => by simp [cmpToks]
  | _ :: _, [], _, h₁, _ => absurd rfl h₁
  | _ :: _, _ :: _, [], _, h₂ => absurd rfl h₂
  | a :: as, b :: bs, c :: cs, h₁, h₂ => by
    unfold cmpToks at h₁ h₂ ⊢
    rcases hab : cmpTok a b with _ | _ | _ <;> rw [hab] at h₁
    · -- a < b
      rcases hbc : cmpTok b c with _ | _ | _ <;> rw [hbc] at h₂
      · have : cmpTok a c = Ordering.lt := by
          rw [cmpTok_eq_tripleCmp] at *
          exact tripleCmp_lt_le_lt hab (by rw [hbc]; simp)
        simp [this]
      · have : cmpTok a c = Ordering.lt := by
          rw [cmpTok_eq_tripleCmp] at *
          exact tripleCmp_lt_le_lt hab (by rw [hbc]; simp)
        simp [this]
      · exact absurd rfl h₂
    · -- a "equal to" b: same token key
      have hk : tokKey a = tokKey b := by
        rw [cmpTok_eq_tripleCmp] at hab; exact (tripleCmp_eq_iff _ _).1 hab
      have hac : cmpTok a c = cmpTok b c := by
        rw [cmpTok_eq_tripleCmp, cmpTok_eq_tripleCmp, hk]
      rcases hbc : cmpTok b c with _ | _ | _ <;> rw [hbc] at h₂ <;> rw [hbc] at hac
      · simp [hac]
      · rw [hac]
        exact cmpToks_le_trans h₁ h₂
      · exact absurd rfl h₂
    · exact absurd rfl h₁

lemma ordBne_gt_iff {o : Ordering} : (o != Ordering.gt) = true ↔ o ≠ Ordering.gt := by
  cases o <;> decide

lemma localeCompareNum_swap (a b : String) :
    (localeCompareNum a b).swap = localeCompareNum b a :=
  cmpToks_swap (toks a.data) (toks b.data)

lemma keyLE_total (a b : String) : keyLE a b = true ∨ keyLE b a = true := by
  unfold keyLE
  rw [ordBne_gt_iff, ordBne_gt_iff]
  by_cases h : localeCompareNum a b = Ordering.gt
  · right
    have hs : localeCompareNum b a = Ordering.lt := by
      rw [← localeCompareNum_swap a b, h]; rfl
    rw [hs]; simp
  · exact Or.inl h

lemma keyLE_trans {a b c : String} (h₁ : keyLE a b = true) (h₂ : keyLE b c = true) :
    keyLE a c = true := by
  unfold keyLE at *
  rw [ordBne_gt_iff] at h₁ h₂ ⊢
  unfold localeCompareNum at *
  exact cmpToks_le_trans h₁ h₂

/-- If the comparator refuses to put either string strictly after the other,
they collate equal. -/
lemma localeCompareNum_eq_of_le_le {a b : String}
    (h₁ : keyLE a b = true) (h₂ : keyLE b a = true) :
    localeCompareNum a b = Ordering.eq := by
  unfold keyLE at h₁ h₂
  rw [ordBne_gt_iff] at h₁ h₂
  rcases h : localeCompareNum a b with _ | _ | _
  · have hs : localeCompareNum b a = Ordering.gt := by
      rw [← localeCompareNum_swap a b, h]; rfl
    exact absurd hs h₂
  · rfl
  · exact absurd h h₁

instance : IsTrans String keyRel :=
  ⟨fun _ _ _ => keyLE_trans⟩

instance : IsTotal String keyRel :=
  ⟨fun a b => keyLE_total a b⟩

instance : IsTrans Line lineRel :=
  ⟨fun _ _ _ => keyLE_trans⟩

instance : IsTotal Line lineRel :=
  ⟨fun a b => keyLE_total a.key b.key⟩

instance : IsTrans Point dateRel :=
  ⟨fun _ _ _ h₁ h₂ => Nat.le_trans h₁ h₂⟩

instance : IsTotal Point dateRel :=
  ⟨fun p q => Nat.le_total (dateKey p.x) (dateKey q.x)⟩

/-- Two sorted lists that are permutations of each other are equal, provided
the relation is antisymmetric on the elements involved (a local version of
`List.eq_of_perm_of_sorted`, needed because distinct keys may collate
equal). -/
lemma sorted_eq_of_perm_local {α : Type} {r : α → α → Prop} :
    ∀ {l₁ l₂ : List α}, l₁.Perm l₂ → l₁.Pairwise r → l₂.Pairwise r →
      (∀ a b, a ∈ l₁ → b ∈ l₁ → r a b → r b a → a = b) → l₁ = l₂
  | [], l₂, hp, _, _, _ => hp.nil_eq
  | a :: t₁, l₂, hp, hs₁, hs₂, hanti => by
    have ha2 : a ∈ l₂ := hp.subset (List.mem_cons_self a t₁)
    cases l₂ with
    | nil => exact absurd hp.symm.nil_eq (by simp)
    | cons b t₂ =>
      have hab : a = b := by
        rcases List.mem_cons.1 ha2 with h | h
        · exact h
        · have hba : b ∈ a :: t₁ := hp.symm.subset (List.mem_cons_self b t₂)
          rcases List.mem_cons.1 hba with h' | h'
          · exact h'.symm
          · exact hanti a b (List.mem_cons_self a t₁) (List.mem_cons_of_mem a h')
              ((List.pairwise_cons.1 hs₁).1 b h') ((List.pairwise_cons.1 hs₂).1 a h)
      subst hab
      have ht : t₁.Perm t₂ := hp.cons_inv
      have := sorted_eq_of_perm_local ht (List.Pairwise.of_cons hs₁)
        (List.Pairwise.of_cons hs₂)
        (fun x y hx hy => hanti x y (List.mem_cons_of_mem a hx) (List.mem_cons_of_mem a hy))
      rw [this]

/-! ## The Number Normalizer claims (C1, C9, C10) -/

lemma takeWhile_append_of_all {p : Char → Bool} {a : List Char} (b : List Char) {x : Char}
    (ha : ∀ c ∈ a, p c = true) (hx : p x = false) :
    (a ++ x :: b).takeWhile p = a := by
  induction a with
  | nil => simp [List.takeWhile, hx]
  | cons c cs ih =>
    have hc : p c = true := ha c (List.mem_cons_self c cs)
    simp only [List.cons_append, List.takeWhile, hc, List.append_eq]
    rw [ih (fun d hd => ha d (List.mem_cons_of_mem c hd))]

lemma dropWhile_append_of_all {p : Char → Bool} {a : List Char} (b : List Char) {x : Char}
    (ha : ∀ c ∈ a, p c = true) (hx : p x = false) :
    (a ++ x :: b).dropWhile p = x :: b := by
  induction a with
  | nil => simp [List.dropWhile, hx]
  | cons c cs ih =>
    have hc : p c = true := ha c (List.mem_cons_self c cs)
    simp only [List.cons_append, List.dropWhile, hc, List.append_eq]
    exact ih (fun d hd => ha d (List.mem_cons_of_mem c hd))

lemma takeWhile_eq_self_of_all {p : Char → Bool} {l : List Char}
    (h : ∀ c ∈ l, p c = true) : l.takeWhile p = l := by
  induction l with
  | nil => rfl
  | cons c cs ih =>
    have hc : p c = true := h c (List.mem_cons_self c cs)
    simp only [List.takeWhile, hc]
    rw [ih (fun d hd => h d (List.mem_cons_of_mem c hd))]

lemma replaceComma_append {a : List Char} (b : List Char)
    (ha : ∀ c ∈ a, c ≠ ',') : replaceComma (a ++ ',' :: b) = a ++ '.' :: b := by
  induction a with
  | nil => simp [replaceComma]
  | cons c cs ih =>
    have hc : c ≠ ',' := ha c (List.mem_cons_self c cs)
    simp only [List.cons_append, replaceComma, if_neg hc, List.append_eq]
    rw [ih (fun d hd => ha d (List.mem_cons_of_mem c hd))]

lemma parseFloatQ_append (a b : List Char) (ha : ∀ c ∈ a, c.isDigit = true)
    (hb : ∀ c ∈ b, c.isDigit = true) (hne : a ≠ [] ∨ b ≠ []) :
    parseFloatQ (a ++ '.' :: b) =
      some ((natOfDigits a : ℚ) + (natOfDigits b : ℚ) / 10 ^ b.length) := by
  have h1 : (a ++ '.' :: b).takeWhile Char.isDigit = a :=
    takeWhile_append_of_all b ha (by decide)
  have h2 : (a ++ '.' :: b).dropWhile Char.isDigit = '.' :: b :=
    dropWhile_append_of_all b ha (by decide)
  have h3 : b.takeWhile Char.isDigit = b := takeWhile_eq_self_of_all hb
  simp only [parseFloatQ, h1, h2]
  simp only [h3]
  rw [if_neg]
  rintro ⟨h4, h5⟩
  rcases hne with h | h
  · exact h h4
  · exact h h5

lemma parseFloatQ_nonneg {cs : List Char} {q : ℚ} (h : parseFloatQ cs = some q) :
    0 ≤ q := by
  simp only [parseFloatQ] at h
  split at h
  · exact absurd h (by simp)
  · rw [Option.some_inj] at h
    subst h
    positivity

/-- C9 — the Number Normalizer is total and never throws: it maps `null` to
absent, returns a finite number unchanged, maps the empty string (and any
string whose cleaned text is empty, including the spellings of the non-finite
numbers) to absent, maps a failed parse to absent, and always returns either
a number or the absent marker. -/
theorem C9_normalizer_total_and_defaults :
    toNumberOrNull JSVal.vnull = none ∧
    (∀ q : ℚ, toNumberOrNull (JSVal.num q) = some q) ∧
    toNumberOrNull (JSVal.str "") = none ∧
    (toNumberOrNull JSVal.nan = none ∧ ∀ b, toNumberOrNull (JSVal.inf b) = none) ∧
    (∀ s : String, cleanChars s = [] → toNumberOrNull (JSVal.str s) = none) ∧
    (∀ s : String, parseFloatQ (replaceComma (cleanChars s)) = none →
      toNumberOrNull (JSVal.str s) = none) ∧
    (∀ v : JSVal, toNumberOrNull v = none ∨ ∃ q : ℚ, toNumberOrNull v = some q) := by
  refine ⟨rfl, fun q => rfl, rfl, ⟨rfl, fun b => by cases b <;> rfl⟩, ?_, ?_, ?_⟩
  · intro s hs
    show toNumberFromString s = none
    simp only [toNumberFromString, hs]
    rfl
  · intro s hs
    show toNumberFromString s = none
    simp only [toNumberFromString]
    split
    · rfl
    · exact hs
  · intro v
    cases h : toNumberOrNull v with
    | none => exact Or.inl rfl
    | some q => exact Or.inr ⟨q, rfl⟩

/-- C9 witness: the general clauses instantiated at concrete inputs. -/
theorem C9_normalizer_witness :
    toNumberOrNull (JSVal.str "abc") = none ∧ toNumberOrNull (JSVal.str "..") = none := by
  constructor
  · exact C9_normalizer_total_and_defaults.2.2.2.2.1 "abc" (by decide)
  · exact C9_normalizer_total_and_defaults.2.2.2.2.2.1 ".." (by decide)

/-- C10 — on string input the Number Normalizer never returns a negative
number: every non-absent result is `≥ 0`, and in particular the minus sign of
`"-5"` is stripped so it normalizes to `5`. -/
theorem C10_no_negative_from_strings :
    (∀ (s : String) (q : ℚ), toNumberOrNull (JSVal.str s) = some q → 0 ≤ q) ∧
    toNumberOrNull (JSVal.str "-5") = some 5 := by
  constructor
  · intro s q h
    have h' : toNumberFromString s = some q := h
    simp only [toNumberFromString] at h'
    split at h'
    · exact absurd h' (by simp)
    · exact parseFloatQ_nonneg h'
  · with_unfolding_all decide

/-- C10 witness: the nonnegativity clause applied at the concrete input
`"-5"`. -/
theorem C10_no_negative_witness : (0 : ℚ) ≤ 5 :=
  C10_no_negative_from_strings.1 "-5" 5 C10_no_negative_from_strings.2

/-- C1 counterexample — the claim that the period of `"1.234,56"` is removed
as a thousands separator is false: `toNumberOrNull` never removes periods (it
only rewrites the first comma to a period), and the greedy float parse of
`"1.234.56"` stops at the second period, so the result is `1.234`, not
`1234.56`. -/
theorem C1_counterexample_thousands :
    toNumberOrNull (JSVal.str "1.234,56") = some (1234 / 1000 : ℚ) ∧
    ¬ toNumberOrNull (JSVal.str "1.234,56") = some (123456 / 100 : ℚ) := by
  with_unfolding_all decide

/-- C1 (amended) — for a cleaned input made of digits around a single comma
the comma becomes the decimal separator, so `normalize("12,5") = 12.5`; but
when a period is also present it is NOT removed: only the first comma is
rewritten to a period and parsing stops at the next non-numeric character,
so `normalize("1.234,56") = 1.234`. -/
theorem C1_comma_decimal_amended :
    (∀ a b : List Char, (∀ c ∈ a, c.isDigit = true) → (∀ c ∈ b, c.isDigit = true) →
      (a ≠ [] ∨ b ≠ []) →
      toNumberOrNull (JSVal.str ⟨a ++ ',' :: b⟩) =
        some ((natOfDigits a : ℚ) + (natOfDigits b : ℚ) / 10 ^ b.length)) ∧
    toNumberOrNull (JSVal.str "12,5") = some (25 / 2 : ℚ) ∧
    toNumberOrNull (JSVal.str "1.234,56") = some (1234 / 1000 : ℚ) := by
  refine ⟨?_, by with_unfolding_all decide, by with_unfolding_all decide⟩
  intro a b ha hb hne
  have hkeep : ∀ c ∈ a, (c.isDigit || c = '.' || c = ',') = true := by
    intro c hc; simp [ha c hc]
  have hclean : cleanChars ⟨a ++ ',' :: b⟩ = a ++ ',' :: b := by
    show (a ++ ',' :: b).filter _ = a ++ ',' :: b
    rw [List.filter_append, List.filter_eq_self.2 hkeep]
    congr 1
    apply List.filter_eq_self.2
    intro c hc
    rcases List.mem_cons.1 hc with h | h
    · subst h; rfl
    · simp [hb c h]
  have hnotcomma : ∀ c ∈ a, c ≠ ',' := by
    intro c hc heq
    subst heq
    exact absurd (ha _ hc) (by decide)
  show toNumberFromString _ = _
  simp only [toNumberFromString, hclean]
  rw [if_neg (by simp)]
  rw [replaceComma_append b hnotcomma]
  exact parseFloatQ_append a b ha hb hne

/-- C1 amended witness: the comma-decimal clause applied at `12,5`. -/
theorem C1_comma_decimal_witness :
    toNumberOrNull (JSVal.str ⟨['1', '2'] ++ ',' :: ['5']⟩) =
      some ((natOfDigits ['1', '2'] : ℚ) + (natOfDigits ['5'] : ℚ) / 10 ^ 1) := by
  have := C1_comma_decimal_amended.1 ['1', '2'] ['5'] (by decide) (by decide)
    (Or.inl (by simp))
  simpa using this

/-! ## The Header Classifier claims (C2) -/

/-- C2 counterexample — under the fully-labeled convention a duration-named
column is NOT excluded: for headers `["Datum","A3","","B1 lbs","sec"]` the
scan produces a third machine column named `"sec"` (the loop pushes every
non-empty header not consumed as a blank pair), and with a data row the
transform emits an output series keyed `"sec"` — contradicting the claim that
the machine columns are exactly `A3` and `B1` with no series for `"sec"`. -/
theorem C2_counterexample_sec_not_filtered :
    machineColumns ["Datum", "A3", "", "B1 lbs", "sec"] =
      [{ name := "A3", index := 1 }, { name := "B1 lbs", index := 3 },
       { name := "sec", index := 4 }] ∧
    "sec" ∈ (machineColumns ["Datum", "A3", "", "B1 lbs", "sec"]).map
      (fun c => c.name) ∧
    ∃ out, transform [["Datum", "A3", "", "B1 lbs", "sec"],
        ["01.01.2024", "10", "120", "20", "130"]] = some out ∧
      ∃ line ∈ out, line.key = "sec" ∧ line.values ≠ [] := by
  refine ⟨by with_unfolding_all decide, by with_unfolding_all decide,
    [{ key := "Average", values := [{ x := "01.01.2024", y := 160 / 3 }],
       isAverage := true, color := some (Color.rgb 0 0 0) },
     { key := "A3", values := [{ x := "01.01.2024", y := 10, sec := some 120 }],
       color := some (Color.hsl 205 70 50) },
     { key := "B1", values := [{ x := "01.01.2024", y := 20, sec := some 130 }],
       color := some (Color.hsl 160 70 45) },
     { key := "sec", values := [{ x := "01.01.2024", y := 130, sec := none }],
       color := some (Color.hsl 0 0 50) }], by with_unfolding_all decide, ?_⟩
  refine ⟨{ key := "sec",
            values := [{ x := "01.01.2024", y := 130, sec := none }],
            color := some (Color.hsl 0 0 50) }, by simp, rfl, by simp⟩

/-- C2 (amended) — the Header Classifier does not filter duration-named
columns: a blank header is consumed as the preceding machine's duration
column, but every non-empty header (including one named with a duration
marker such as `"sec"`) starts its own machine column.  For the example
headers the machine columns are `A3` at index 1 (blank column 2 is its
paired duration column, the emitted `sec` value 120 comes from there),
`B1 lbs` at index 3 (stripped to `B1`; its duration is read from column 4,
the `"sec"`-headed column, value 130), and `"sec"` itself at index 4, whose
out-of-range neighbour column 5 yields absent durations. -/
theorem C2_header_classifier_amended :
    machineColumns ["Datum", "A3", "", "B1 lbs", "sec"] =
      [{ name := "A3", index := 1 }, { name := "B1 lbs", index := 3 },
       { name := "sec", index := 4 }] ∧
    transform [["Datum", "A3", "", "B1 lbs", "sec"],
        ["01.01.2024", "10", "120", "20", "130"]] =
      some [{ key := "Average", values := [{ x := "01.01.2024", y := 160 / 3 }],
              isAverage := true, color := some (Color.rgb 0 0 0) },
            { key := "A3", values := [{ x := "01.01.2024", y := 10, sec := some 120 }],
              color := some (Color.hsl 205 70 50) },
            { key := "B1", values := [{ x := "01.01.2024", y := 20, sec := some 130 }],
              color := some (Color.hsl 160 70 45) },
            { key := "sec", values := [{ x := "01.01.2024", y := 130, sec := none }],
              color := some (Color.hsl 0 0 50) }] := by
  constructor
  · with_unfolding_all decide
  · with_unfolding_all decide

/-! ## The Series Builder duration claims (C3) -/

/-- C3 counterexample — a machine with no paired duration column does not get
absent durations: with headers `["Datum","A1","B1"]` (no blank column after
`A1`), the point emitted for `A1` carries `sec = 200`, which is `B1`'s weight
value from the neighbouring primary column, not an absent duration. -/
theorem C3_counterexample_neighbour_weight_as_duration :
    transform [["Datum", "A1", "B1"], ["01.01.2024", "100", "200"]] =
      some [{ key := "Average", values := [{ x := "01.01.2024", y := 150 }],
              isAverage := true, color := some (Color.rgb 0 0 0) },
            { key := "A1", values := [{ x := "01.01.2024", y := 100, sec := some 200 }],
              color := some (Color.hsl 205 70 50) },
            { key := "B1", values := [{ x := "01.01.2024", y := 200, sec := none }],
              color := some (Color.hsl 160 70 45) }] ∧
    ¬ (∀ line ∈ (transform [["Datum", "A1", "B1"],
          ["01.01.2024", "100", "200"]]).getD [],
        line.key = "A1" → ∀ p ∈ line.values, p.sec = none) := by
  constructor
  · with_unfolding_all decide
  · intro h
    have := h { key := "A1",
                values := [{ x := "01.01.2024", y := 100, sec := some 200 }],
                color := some (Color.hsl 205 70 50) }
      (by with_unfolding_all decide) rfl
      { x := "01.01.2024", y := 100, sec := some 200 } (by simp)
    simp at this

/-- C3 (amended) — every emitted data point takes its duration from the
column immediately after the machine's primary column whenever that index is
inside the header row, whether or not that column is a paired duration
column; the duration is absent only when the primary column is the last
header column (or the neighbouring cell is missing or unparseable, in which
case the normalizer yields absent). -/
theorem C3_duration_from_adjacent_column_amended :
    ∀ (headers : List String) (rows : List (List String)) (line : Line) (p : Point),
      line ∈ buildLines headers rows → p ∈ line.values →
      ∃ mc ∈ machineColumns headers, ∃ row ∈ rows,
        line.key = stripLbs mc.name ∧
        toNumberOrNull (jsCell row mc.index) = some p.y ∧
        p.x = (row.get? 0).getD "" ∧
        p.sec = (if mc.index + 1 < headers.length then
                   toNumberOrNull (jsCell row (mc.index + 1)) else none) := by
  intro headers rows line p hline hp
  have hline' := (List.mem_filter.1 hline).1
  obtain ⟨mc, hmc, hEq⟩ := List.mem_map.1 hline'
  subst hEq
  simp only at hp
  obtain ⟨row, hrow, hpoint⟩ := List.mem_filterMap.1 hp
  refine ⟨mc, hmc, row, hrow, rfl, ?_⟩
  simp only [pointForRow] at hpoint
  cases hy : toNumberOrNull (jsCell row mc.index) with
  | none => exact absurd hpoint (by simp only [hy]; simp)
  | some y =>
    simp only [hy] at hpoint
    by_cases ht : truthyCell row 0 = true
    · rw [if_pos ht, Option.some_inj] at hpoint
      subst hpoint
      exact ⟨rfl, rfl, rfl⟩
    · rw [if_neg ht] at hpoint
      exact absurd hpoint (by simp)

/-- C3 amended witness: the general clause applied to the concrete `A1` line
of the counterexample table. -/
theorem C3_duration_witness :
    ∃ mc ∈ machineColumns ["Datum", "A1", "B1"],
      ∃ row ∈ [["01.01.2024", "100", "200"]],
        ({ key := "A1", values := [{ x := "01.01.2024", y := 100, sec := some 200 }] }
          : Line).key = stripLbs mc.name ∧
        toNumberOrNull (jsCell row mc.index) =
          some ({ x := "01.01.2024", y := 100, sec := some 200 } : Point).y ∧
        ({ x := "01.01.2024", y := 100, sec := some 200 } : Point).x =
          (row.get? 0).getD "" ∧
        ({ x := "01.01.2024", y := 100, sec := some 200 } : Point).sec =
          (if mc.index + 1 < (["Datum", "A1", "B1"] : List String).length then
             toNumberOrNull (jsCell row (mc.index + 1)) else none) :=
  C3_duration_from_adjacent_column_amended ["Datum", "A1", "B1"]
    [["01.01.2024", "100", "200"]]
    { key := "A1", values := [{ x := "01.01.2024", y := 100, sec := some 200 }] }
    { x := "01.01.2024", y := 100, sec := some 200 }
    (by with_unfolding_all decide) (by simp)

/-! ## The Series Ordering Policy claims (C7, C8) -/

lemma orderSeries_def (s : List Line) (g : Bool) :
    orderSeries s g =
      (s.find? fun d => d.isAverage).toList ++
        (if g then List.insertionSort lineRel (s.filter fun d => !d.isAverage)
         else s.filter fun d => !d.isAverage) := rfl

lemma mem_orderSeries_machines {s : List Line} {g : Bool} {x : Line}
    (hx : x ∈ (if g then List.insertionSort lineRel (s.filter fun d => !d.isAverage)
               else s.filter fun d => !d.isAverage)) :
    x ∈ s ∧ x.isAverage = false := by
  have hx' : x ∈ s.filter fun d => !d.isAverage := by
    cases g with
    | true => rw [if_pos rfl] at hx; exact (List.mem_insertionSort _).1 hx
    | false => rwa [if_neg (by simp)] at hx
  rcases List.mem_filter.1 hx' with ⟨h1, h2⟩
  exact ⟨h1, by simpa using h2⟩

lemma orderSeries_filter (s : List Line) (g : Bool) :
    (orderSeries s g).filter (fun d => !d.isAverage) =
      (if g then List.insertionSort lineRel (s.filter fun d => !d.isAverage)
       else s.filter fun d => !d.isAverage) := by
  rw [orderSeries_def, List.filter_append]
  have h1 : ((s.find? fun d => d.isAverage).toList).filter (fun d => !d.isAverage) = [] := by
    cases hf : s.find? fun d => d.isAverage with
    | none => rfl
    | some a =>
      have ha := List.find?_some hf
      simp [ha]
  have h2 : ∀ a ∈ (if g then List.insertionSort lineRel (s.filter fun d => !d.isAverage)
      else s.filter fun d => !d.isAverage), (!a.isAverage) = true := by
    intro a ha
    have := (mem_orderSeries_machines ha).2
    simp [this]
  rw [h1, List.filter_eq_self.2 h2, List.nil_append]

lemma orderSeries_find (s : List Line) (g : Bool) :
    (orderSeries s g).find? (fun d => d.isAverage) = s.find? (fun d => d.isAverage) := by
  rw [orderSeries_def]
  cases hf : s.find? fun d => d.isAverage with
  | some a =>
    simp only [Option.toList_some, List.cons_append]
    exact List.find?_cons_of_pos _ (List.find?_some hf)
  | none =>
    simp only [Option.toList_none, List.nil_append]
    apply List.find?_eq_none.2
    intro x hx
    have := (mem_orderSeries_machines hx).2
    simp [this]

/-- C7 — the ordering policy puts the Average series (when present) first;
with grouping off the remaining series keep their original order; with
grouping on they are sorted by the locale-aware numeric key comparison (and
remain a permutation of the original machine series), under which `"A9"`
precedes `"A10"` — demonstrated concretely on a two-series array. -/
theorem C7_ordering_average_first_then_sorted :
    (∀ (s : List Line) (g : Bool), (∃ d ∈ s, d.isAverage = true) →
      ∃ a, (orderSeries s g).head? = some a ∧ a.isAverage = true) ∧
    (∀ s : List Line, (orderSeries s false).filter (fun d => !d.isAverage) =
      s.filter (fun d => !d.isAverage)) ∧
    (∀ s : List Line,
      ((orderSeries s true).filter (fun d => !d.isAverage)).Sorted lineRel ∧
      ((orderSeries s true).filter (fun d => !d.isAverage)).Perm
        (s.filter (fun d => !d.isAverage))) ∧
    (keyRel "A9" "A10" ∧ ¬ keyRel "A10" "A9") ∧
    (orderSeries [{ key := "A10", values := [] }, { key := "A9", values := [] }] true).map
      (fun l => l.key) = ["A9", "A10"] := by
  refine ⟨?_, ?_, ?_, by with_unfolding_all decide, by with_unfolding_all decide⟩
  · rintro s g ⟨d, hd, hdavg⟩
    have hsome : (s.find? fun d => d.isAverage).isSome :=
      List.find?_isSome.2 ⟨d, hd, hdavg⟩
    obtain ⟨a, ha⟩ := Option.isSome_iff_exists.1 hsome
    refine ⟨a, ?_, List.find?_some ha⟩
    rw [orderSeries_def, ha]
    rfl
  · intro s
    rw [orderSeries_filter, if_neg (by simp)]
  · intro s
    rw [orderSeries_filter, if_pos rfl]
    exact ⟨List.sorted_insertionSort lineRel _, List.perm_insertionSort lineRel _⟩

/-- C7 witness: the Average-first clause applied to a concrete two-series
array. -/
theorem C7_ordering_witness :
    ∃ a, (orderSeries [{ key := "Average", values := [], isAverage := true },
        { key := "B1", values := [] }] false).head? = some a ∧ a.isAverage = true :=
  C7_ordering_average_first_then_sorted.1
    [{ key := "Average", values := [], isAverage := true }, { key := "B1", values := [] }]
    false ⟨{ key := "Average", values := [], isAverage := true }, by simp, rfl⟩

/-- C8 — the ordering policy is idempotent (running it twice with the same
`groupModeEnabled` equals running it once) and every output series is one of
the input series unchanged, so it carries exactly the color it had in the
input (ordering never derives or changes colors). -/
theorem C8_ordering_idempotent_color_preserving :
    ∀ (s : List Line) (g : Bool),
      orderSeries (orderSeries s g) g = orderSeries s g ∧
      ∀ t ∈ orderSeries s g, t ∈ s := by
  intro s g
  constructor
  · conv_lhs => rw [orderSeries_def (orderSeries s g) g]
    rw [orderSeries_find, orderSeries_filter]
    conv_rhs => rw [orderSeries_def s g]
    congr 1
    cases g with
    | true => exact List.Sorted.insertionSort_eq (List.sorted_insertionSort lineRel _)
    | false => rfl
  · intro t ht
    rw [orderSeries_def] at ht
    rcases List.mem_append.1 ht with h | h
    · cases hf : s.find? fun d => d.isAverage with
      | none => rw [hf] at h; simp at h
      | some a =>
        rw [hf] at h
        simp only [Option.toList_some, List.mem_singleton] at h
        subst h
        exact List.mem_of_find?_eq_some hf
    · exact (mem_orderSeries_machines h).1

/-- C8 witness: idempotence and membership at a concrete array, with the
membership hypothesis discharged concretely. -/
theorem C8_ordering_witness :
    orderSeries
        (orderSeries [{ key := "A10", values := [] }, { key := "A9", values := [] }] true)
        true =
      orderSeries [{ key := "A10", values := [] }, { key := "A9", values := [] }] true ∧
    ({ key := "A9", values := [] } : Line) ∈
      ([{ key := "A10", values := [] }, { key := "A9", values := [] }] : List Line) := by
  constructor
  · exact (C8_ordering_idempotent_color_preserving
      [{ key := "A10", values := [] }, { key := "A9", values := [] }] true).1
  · exact (C8_ordering_idempotent_color_preserving
      [{ key := "A10", values := [] }, { key := "A9", values := [] }] true).2
      { key := "A9", values := [] } (by with_unfolding_all decide)

/-! ## The Color Assigner claims (C5, C6) -/

/-- C5 counterexample — color assignment is not invariant under permutation
of the input order for every key set: the numeric-aware collation treats
`"A1"` and `"A01"` as equal (leading zeros carry no weight), the stable sort
therefore keeps them in input order, and whichever comes first gets the group
base color while the other gets the shifted shade, so swapping the two series
changes the color assigned to `"A1"`. -/
theorem C5_counterexample_permutation_changes_color :
    ([{ key := "A1", values := [] }, { key := "A01", values := [] }] : List Line).Perm
      [{ key := "A01", values := [] }, { key := "A1", values := [] }] ∧
    localeCompareNum "A1" "A01" = Ordering.eq ∧ ("A1" : String) ≠ "A01" ∧
    mapGet (machineColorsMap
        [{ key := "A1", values := [] }, { key := "A01", values := [] }]) "A1" =
      some (Color.hsl 205 70 50) ∧
    mapGet (machineColorsMap
        [{ key := "A01", values := [] }, { key := "A1", values := [] }]) "A1" =
      some (Color.hsl 205 70 58) := by
  refine ⟨?_, by with_unfolding_all decide, by decide,
    by with_unfolding_all decide, by with_unfolding_all decide⟩
  exact List.Perm.swap _ _ _

/-- C5 (amended) — color assignment is invariant under permutation of the
input series order provided no two distinct keys collate equal under the
numeric-aware comparison (e.g. no leading-zero aliases such as `"A1"` vs
`"A01"`): then the sorted key list, and with it the whole key-to-color
mapping, is a pure function of the key multiset. -/
theorem C5_color_order_invariant_amended :
    ∀ l₁ l₂ : List Line, l₁.Perm l₂ →
      ((l₁.map fun line => line.key).Pairwise fun a b =>
        localeCompareNum a b = Ordering.eq → a = b) →
      machineColorsMap l₁ = machineColorsMap l₂ ∧
      ∀ k, mapGet (machineColorsMap l₁) k = mapGet (machineColorsMap l₂) k := by
  intro l₁ l₂ hperm hpair
  have hsym : Symmetric (fun a b : String =>
      localeCompareNum a b = Ordering.eq → a = b) := by
    intro a b hab hba
    have hab' : localeCompareNum a b = Ordering.eq := by
      rw [← localeCompareNum_swap b a, hba]; rfl
    exact (hab hab').symm
  have hanti : ∀ a b : String, a ∈ l₁.map (fun line => line.key) →
      b ∈ l₁.map (fun line => line.key) →
      localeCompareNum a b = Ordering.eq → a = b := by
    intro a b ha hb heq
    by_cases hab : a = b
    · exact hab
    · exact hpair.forall hsym ha hb hab heq
  have hkeys : (l₁.map fun line => line.key).Perm (l₂.map fun line => line.key) :=
    hperm.map _
  have hsorted : sortedMachineKeys l₁ = sortedMachineKeys l₂ := by
    unfold sortedMachineKeys
    apply sorted_eq_of_perm_local (r := keyRel)
    · exact (List.perm_insertionSort keyRel _).trans
        (hkeys.trans (List.perm_insertionSort keyRel _).symm)
    · exact List.sorted_insertionSort keyRel _
    · exact List.sorted_insertionSort keyRel _
    · intro a b ha hb hrab hrba
      exact hanti a b ((List.mem_insertionSort keyRel).1 ha)
        ((List.mem_insertionSort keyRel).1 hb)
        (localeCompareNum_eq_of_le_le hrab hrba)
  have hmap : machineColorsMap l₁ = machineColorsMap l₂ := by
    unfold machineColorsMap
    rw [hsorted]
  exact ⟨hmap, fun k => by rw [hmap]⟩

/-- C5 amended witness: two permutations of a two-machine array with
collation-distinct keys get the same color map. -/
theorem C5_color_order_witness :
    machineColorsMap [{ key := "A1", values := [] }, { key := "B2", values := [] }] =
      machineColorsMap [{ key := "B2", values := [] }, { key := "A1", values := [] }] :=
  (C5_color_order_invariant_amended
    [{ key := "A1", values := [] }, { key := "B2", values := [] }]
    [{ key := "B2", values := [] }, { key := "A1", values := [] }]
    (List.Perm.swap _ _ _) (by with_unfolding_all decide)).1

/-! ## The color formula (C6) -/

lemma assignColorsAux_fst : ∀ (ks : List String) (g : String → Nat),
    (assignColorsAux ks g).map Prod.fst = ks
  | [], _ => rfl
  | k :: ks, g => by
    simp only [assignColorsAux, List.map_cons]
    rw [assignColorsAux_fst ks]

lemma assignColorsAux_entry :
    ∀ (pre : List String) (k : String) (post : List String) (g : String → Nat),
      ∃ tail, assignColorsAux (pre ++ k :: post) g =
        assignColorsAux pre g ++
          (k, getColorForMachine k
            (fun x => g x + pre.countP fun a => groupLetter a == x)) :: tail
  | [], k, post, g => by
    refine ⟨assignColorsAux post
      (fun x => if x = groupLetter k then g x + 1 else g x), ?_⟩
    have hg : (fun x => g x + List.countP (fun a => groupLetter a == x) []) = g := by
      funext x
      simp [List.countP_nil]
    rw [hg]
    rfl
  | a :: pre, k, post, g => by
    obtain ⟨tail, htail⟩ := assignColorsAux_entry pre k post
      (fun x => if x = groupLetter a then g x + 1 else g x)
    refine ⟨tail, ?_⟩
    have hcount : (fun x => (if x = groupLetter a then g x + 1 else g x) +
        pre.countP fun b => groupLetter b == x) =
        (fun x => g x + (a :: pre).countP fun b => groupLetter b == x) := by
      funext x
      rw [List.countP_cons]
      by_cases hx : x = groupLetter a
      · have hba : (groupLetter a == x) = true := by subst hx; simp
        rw [if_pos hx, hba, if_pos rfl]
        omega
      · have hbf : (groupLetter a == x) = false := by
          apply beq_eq_false_iff_ne.2
          intro hc
          exact hx hc.symm
        rw [if_neg hx, hbf, if_neg (by simp)]
        omega
    show (a, getColorForMachine a g) ::
        assignColorsAux (pre ++ k :: post)
          (fun x => if x = groupLetter a then g x + 1 else g x) = _
    rw [htail, hcount]
    rfl

lemma lookup_append_of_not_fst :
    ∀ {l r : List (String × Color)} {k : String}, k ∉ l.map Prod.fst →
      (l ++ r).lookup k = r.lookup k
  | [], _, _, _ => rfl
  | (a, c) :: l, r, k, h => by
    have hka : (k == a) = false := by
      apply beq_eq_false_iff_ne.2
      intro hc
      exact h (by simp [hc])
    simp only [List.cons_append, List.lookup, hka]
    exact lookup_append_of_not_fst (fun hc => h (List.mem_cons_of_mem _ hc))

lemma getColorForMachine_eq_spec (k : String) (counts : String → Nat) :
    getColorForMachine k counts = specColorForRank k (counts (groupLetter k)) := by
  simp only [getColorForMachine, specColorForRank]
  by_cases hr : counts (groupLetter k) = 0
  · simp [hr]
  · rw [if_neg hr, if_neg hr]
    by_cases hodd : counts (groupLetter k) % 2 = 1
    · rw [if_pos hodd]
      congr 3
      ring
    · rw [if_neg hodd]
      congr 3
      ring

/-- C6 — within each first-letter group, ranked in the sorted key order, the
rank-0 machine keeps the group base color and the rank-`r` machine (`r ≥ 1`)
gets the base with lightness shifted by `8 × ceil(r/2)`, sign alternating
(positive for odd `r`), clamped to `[20, 85]`, hue and saturation unchanged;
a key whose group letter has no palette entry uses the default grey base.
The rank is exactly the number of same-group keys preceding the key in the
sorted key list. -/
theorem C6_group_rank_lightness_formula :
    (∀ (lines : List Line) (pre post : List String) (k : String),
      sortedMachineKeys lines = pre ++ k :: post →
      k ∉ pre → k ∉ post →
      mapGet (machineColorsMap lines) k =
        some (specColorForRank k
          (pre.countP fun a => groupLetter a == groupLetter k))) ∧
    (∀ (counts : String → Nat) (k : String), groupColors (groupLetter k) = none →
      getColorForMachine k counts =
        specColorForRank k (counts (groupLetter k)) ∧
        specColorForRank k 0 = Color.hsl 0 0 50) := by
  constructor
  · intro lines pre post k hsort hkpre hkpost
    unfold machineColorsMap
    rw [hsort]
    obtain ⟨tail, htail⟩ := assignColorsAux_entry pre k post (fun _ => 0)
    have hfst : pre ++ k :: post =
        pre ++ k :: tail.map Prod.fst := by
      have h1 := assignColorsAux_fst (pre ++ k :: post) (fun _ => 0)
      rw [htail] at h1
      rw [List.map_append, List.map_cons, assignColorsAux_fst] at h1
      exact h1.symm
    have hpost : post = tail.map Prod.fst := by
      have h2 := List.append_cancel_left hfst
      injection h2
    rw [htail]
    unfold mapGet
    rw [List.reverse_append, List.reverse_cons, List.append_assoc,
      List.singleton_append]
    rw [lookup_append_of_not_fst (by
      rw [List.map_reverse, ← hpost]
      simpa using hkpost)]
    have hself : (k == k) = true := by simp
    simp only [List.lookup, hself]
    rw [getColorForMachine_eq_spec]
    show some (specColorForRank k
      (0 + pre.countP fun a => groupLetter a == groupLetter k)) = _
    rw [Nat.zero_add]
  · intro counts k hnone
    constructor
    · exact getColorForMachine_eq_spec k counts
    · unfold specColorForRank
      rw [hnone]
      rfl

/-- C6 witness: in the key set `A9, A10, B1`, the machine `A10` has rank 1
within group `A` in sorted order and receives the `+8` lightness shade of the
group-A base color. -/
theorem C6_group_rank_witness :
    mapGet (machineColorsMap [{ key := "A9", values := [] },
        { key := "A10", values := [] }, { key := "B1", values := [] }]) "A10" =
      some (specColorForRank "A10" 1) := by
  have h := C6_group_rank_lightness_formula.1
    [{ key := "A9", values := [] }, { key := "A10", values := [] },
     { key := "B1", values := [] }]
    ["A9"] ["B1"] "A10"
    (by with_unfolding_all decide) (by decide) (by decide)
  have hc : (["A9"].countP fun a => groupLetter a == groupLetter "A10") = 1 := by
    with_unfolding_all decide
  rw [hc] at h
  exact h

/-! ## The Aggregator claims (C4) -/

lemma dailyStep_fold_spec (pts : List Point) :
    ((pts.foldl dailyStep []).map Prod.fst).Nodup ∧
    (∀ d : String, d ∈ (pts.foldl dailyStep []).map Prod.fst ↔ d ∈ pts.map Point.x) ∧
    (∀ e ∈ pts.foldl dailyStep [],
      e.2.1 = ((pts.filter fun p => p.x == e.1).map fun p => p.y).sum ∧
      e.2.2 = (pts.filter fun p => p.x == e.1).length) := by
  induction pts using List.reverseRecOn with
  | nil => exact ⟨by simp, by simp, by simp⟩
  | append_singleton pts p ih =>
    obtain ⟨ih1, ih2, ih3⟩ := ih
    have hfold : (pts ++ [p]).foldl dailyStep [] =
        dailyStep (pts.foldl dailyStep []) p := by
      rw [List.foldl_append]
      rfl
    rw [hfold]
    by_cases hhas : (pts.foldl dailyStep []).any (fun e => e.1 == p.x) = true
    · have hstep : dailyStep (pts.foldl dailyStep []) p =
          (pts.foldl dailyStep []).map
            (fun e => if e.1 = p.x then (e.1, e.2.1 + p.y, e.2.2 + 1) else e) := by
        simp only [dailyStep]
        rw [if_pos hhas]
      rw [hstep]
      have hfst : ((pts.foldl dailyStep []).map
          (fun e => if e.1 = p.x then (e.1, e.2.1 + p.y, e.2.2 + 1) else e)).map
            Prod.fst = (pts.foldl dailyStep []).map Prod.fst := by
        rw [List.map_map]
        apply List.map_congr_left
        intro e _
        by_cases hx : e.1 = p.x
        · simp [Function.comp, hx]
        · simp [Function.comp, hx]
      have hpx : p.x ∈ (pts.foldl dailyStep []).map Prod.fst := by
        rcases List.any_eq_true.1 hhas with ⟨e, he, heq⟩
        exact List.mem_map.2 ⟨e, he, by simpa using heq⟩
      refine ⟨?_, ?_, ?_⟩
      · rw [hfst]
        exact ih1
      · intro d
        rw [hfst]
        simp only [List.map_append, List.map_cons, List.map_nil, List.mem_append,
          List.mem_singleton]
        constructor
        · intro h
          exact Or.inl ((ih2 d).1 h)
        · rintro (h | h)
          · exact (ih2 d).2 h
          · subst h
            exact hpx
      · intro e' he'
        obtain ⟨e, he, hupd⟩ := List.mem_map.1 he'
        rw [List.filter_append]
        by_cases hx : e.1 = p.x
        · rw [if_pos hx] at hupd
          subst hupd
          have hfil : [p].filter
              (fun q => q.x == (e.1, e.2.1 + p.y, e.2.2 + 1).1) = [p] := by
            simp [hx]
          rw [hfil]
          have hold := ih3 e he
          constructor
          · show e.2.1 + p.y = _
            rw [List.map_append, List.sum_append]
            have : ((pts.filter fun q => q.x == (e.1, e.2.1 + p.y, e.2.2 + 1).1).map
                fun q => q.y).sum = e.2.1 := (hold.1).symm
            rw [this]
            simp
          · show e.2.2 + 1 = _
            rw [List.length_append]
            have : (pts.filter fun q =>
                q.x == (e.1, e.2.1 + p.y, e.2.2 + 1).1).length = e.2.2 := (hold.2).symm
            rw [this]
            simp
        · rw [if_neg hx] at hupd
          subst hupd
          have hfil : [p].filter (fun q => q.x == e.1) = [] := by
            have : (p.x == e.1) = false := by
              apply beq_eq_false_iff_ne.2
              intro hc
              exact hx hc.symm
            simp [this]
          rw [hfil, List.append_nil]
          exact ih3 e he
    · have hstep : dailyStep (pts.foldl dailyStep []) p =
          (pts.foldl dailyStep []) ++ [(p.x, p.y, 1)] := by
        simp only [dailyStep]
        rw [if_neg hhas]
      rw [hstep]
      have hnotmem : p.x ∉ (pts.foldl dailyStep []).map Prod.fst := by
        intro hc
        rcases List.mem_map.1 hc with ⟨e, he, heq⟩
        exact hhas (List.any_eq_true.2 ⟨e, he, by simp [heq]⟩)
      have hnotdate : p.x ∉ pts.map Point.x := fun hc => hnotmem ((ih2 p.x).2 hc)
      refine ⟨?_, ?_, ?_⟩
      · rw [List.map_append, List.nodup_append]
        refine ⟨ih1, by simp, ?_⟩
        intro a ha hb
        simp only [List.map_cons, List.map_nil, List.mem_singleton] at hb
        subst hb
        exact hnotmem ha
      · intro d
        simp only [List.map_append, List.map_cons, List.map_nil, List.mem_append,
          List.mem_singleton]
        constructor
        · rintro (h | h)
          · exact Or.inl ((ih2 d).1 h)
          · exact Or.inr h
        · rintro (h | h)
          · exact Or.inl ((ih2 d).2 h)
          · exact Or.inr h
      · intro e' he'
        rcases List.mem_append.1 he' with h | h
        · have hold := ih3 e' h
          have hxne : (p.x == e'.1) = false := by
            apply beq_eq_false_iff_ne.2
            intro hc
            exact hnotmem (hc ▸ List.mem_map.2 ⟨e', h, rfl⟩)
          rw [List.filter_append]
          have hfil : [p].filter (fun q => q.x == e'.1) = [] := by simp [hxne]
          rw [hfil, List.append_nil]
          exact hold
        · simp only [List.mem_singleton] at h
          subst h
          have hfilpts : pts.filter (fun q => q.x == (p.x, p.y, 1).1) = [] := by
            apply List.filter_eq_nil_iff.2
            intro q hq
            intro hc
            have : q.x = p.x := by simpa using hc
            exact hnotdate (this ▸ List.mem_map.2 ⟨q, hq, rfl⟩)
          rw [List.filter_append, hfilpts, List.nil_append]
          constructor
          · show p.y = _
            simp
          · show 1 = _
            simp

lemma dailyTotals_nodup (lines : List Line) :
    ((dailyTotals lines).map Prod.fst).Nodup :=
  (dailyStep_fold_spec (allPoints lines)).1

lemma dailyTotals_mem_iff (lines : List Line) (d : String) :
    d ∈ (dailyTotals lines).map Prod.fst ↔ d ∈ (allPoints lines).map Point.x :=
  (dailyStep_fold_spec (allPoints lines)).2.1 d

lemma dailyTotals_entry (lines : List Line) {e : String × ℚ × Nat}
    (he : e ∈ dailyTotals lines) :
    e.2.1 = (dateVals lines e.1).sum ∧ e.2.2 = (dateVals lines e.1).length := by
  have h := (dailyStep_fold_spec (allPoints lines)).2.2 e he
  unfold dateVals
  exact ⟨h.1, by rw [h.2, List.length_map]⟩

/-- C4 — for every date occurring in at least one built machine series the
Average series exists and has exactly one point for that date, whose value is
the sum of all values recorded under that exact date string divided by their
number (machines without a point that date do not contribute to the
denominator); if no machine series has any points, no Average series is
produced; and in the end-to-end scenario `Average(01.01.2024) = 350/3` and
`Average(02.01.2024) = (105+55)/2 = 80`. -/
theorem C4_average_per_date_mean :
    (∀ (lines : List Line) (d : String), d ∈ (allPoints lines).map Point.x →
      ∃ avg, averageLineOf lines = some avg ∧
        (avg.values.filter fun p => p.x == d).length = 1 ∧
        ∀ p ∈ avg.values, p.x = d →
          p.y = (dateVals lines d).sum / ((dateVals lines d).length : ℚ)) ∧
    (∀ lines : List Line, (∀ line ∈ lines, line.values = []) →
      averageLineOf lines = none) ∧
    transform [["Datum", "A1", "", "A2", "", "B1", ""],
        ["01.01.2024", "100", "110", "200", "130", "50", ""],
        ["02.01.2024", "105", "115", "", "", "55", ""]] =
      some [{ key := "Average",
              values := [{ x := "01.01.2024", y := 350 / 3 },
                         { x := "02.01.2024", y := 80 }],
              isAverage := true, color := some (Color.rgb 0 0 0) },
            { key := "A1",
              values := [{ x := "01.01.2024", y := 100, sec := some 110 },
                         { x := "02.01.2024", y := 105, sec := some 115 }],
              color := some (Color.hsl 205 70 50) },
            { key := "A2",
              values := [{ x := "01.01.2024", y := 200, sec := some 130 }],
              color := some (Color.hsl 205 70 58) },
            { key := "B1",
              values := [{ x := "01.01.2024", y := 50, sec := none },
                         { x := "02.01.2024", y := 55, sec := none }],
              color := some (Color.hsl 160 70 45) }] := by
  refine ⟨?_, ?_, by with_unfolding_all decide⟩
  · intro lines d hd
    have hkey : d ∈ (dailyTotals lines).map Prod.fst :=
      (dailyTotals_mem_iff lines d).2 hd
    have hne : averageValuesOf lines ≠ [] := by
      unfold averageValuesOf
      intro hc
      have hperm := List.perm_insertionSort dateRel
        ((dailyTotals lines).map fun e =>
          ({ x := e.1, y := e.2.1 / (e.2.2 : ℚ) } : Point))
      rw [hc] at hperm
      have := hperm.symm.eq_nil
      rw [List.map_eq_nil_iff] at this
      rw [this] at hkey
      simp at hkey
    have havg : averageLineOf lines =
        some { key := "Average", values := averageValuesOf lines,
               isAverage := true, color := some (Color.rgb 0 0 0) } := by
      unfold averageLineOf
      rw [if_neg (by simpa [List.isEmpty_iff] using hne)]
    refine ⟨_, havg, ?_, ?_⟩
    · show ((averageValuesOf lines).filter fun p => p.x == d).length = 1
      unfold averageValuesOf
      have hperm := (List.perm_insertionSort dateRel
        ((dailyTotals lines).map fun e =>
          ({ x := e.1, y := e.2.1 / (e.2.2 : ℚ) } : Point))).filter
        (fun p => p.x == d)
      rw [hperm.length_eq]
      rw [List.filter_map]
      rw [List.length_map]
      have hcount : ((dailyTotals lines).filter
          ((fun p : Point => p.x == d) ∘ fun e =>
            ({ x := e.1, y := e.2.1 / (e.2.2 : ℚ) } : Point))).length =
          List.count d ((dailyTotals lines).map Prod.fst) := by
        rw [List.count, List.countP_map, List.countP_eq_length_filter]
        congr 1
      rw [hcount]
      exact List.count_eq_one_of_mem (dailyTotals_nodup lines) hkey
    · intro p hp hpx
      have hp' : p ∈ (dailyTotals lines).map fun e =>
          ({ x := e.1, y := e.2.1 / (e.2.2 : ℚ) } : Point) :=
        (List.mem_insertionSort dateRel).1 hp
      obtain ⟨e, he, hmk⟩ := List.mem_map.1 hp'
      have hspec := dailyTotals_entry lines he
      have hx : e.1 = d := by
        rw [← hpx, ← hmk]
      subst hmk
      show e.2.1 / (e.2.2 : ℚ) = _
      rw [hspec.1, hspec.2, hx]
  · intro lines hall
    have hpts : allPoints lines = [] := by
      unfold allPoints
      rw [List.flatten_eq_nil_iff]
      intro l hl
      rcases List.mem_map.1 hl with ⟨line, hline, hEq⟩
      rw [← hEq]
      exact hall line hline
    unfold averageLineOf averageValuesOf dailyTotals
    rw [hpts]
    rfl

/-- C4 witness: the per-date clause applied to a concrete one-machine input,
and the empty clause applied to an empty machine set. -/
theorem C4_average_witness :
    (∃ avg,
      averageLineOf [{ key := "A1", values := [{ x := "01.01.2024", y := 100 }] }]
          = some avg ∧
        (avg.values.filter fun p => p.x == "01.01.2024").length = 1 ∧
        ∀ p ∈ avg.values, p.x = "01.01.2024" →
          p.y =
            (dateVals [{ key := "A1", values := [{ x := "01.01.2024", y := 100 }] }]
                "01.01.2024").sum /
              ((dateVals [{ key := "A1", values := [{ x := "01.01.2024", y := 100 }] }]
                "01.01.2024").length : ℚ)) ∧
    averageLineOf [{ key := "A1", values := [] }] = none := by
  constructor
  · exact C4_average_per_date_mean.1
      [{ key := "A1", values := [{ x := "01.01.2024", y := 100 }] }]
      "01.01.2024" (by with_unfolding_all decide)
  · exact C4_average_per_date_mean.2.1 [{ key := "A1", values := [] }]
      (by simp)

end Kieserchart
